import Mathlib

/-!
Verification of the QR-inventory pipeline
(`src/qr_inventory/app/qr_inventory.py`) against its design spec.

The development shallowly embeds the Python module: pure helpers become
Lean functions over `ℚ`/`Int`/`String`, external OpenCV calls become
oracle inputs (their raw results are parameters), stateful code becomes
explicit state passing, and the lock-protected snapshot publishing
becomes a small interleaving transition system.
-/

set_option maxRecDepth 4000

attribute [local semireducible] Rat.mul Rat.add Rat.sub Rat.inv

namespace QrInventory

/-! ## Option parsing (`_opt_int`, lines 28-32) and history capacity (line 186)

`_opt_int(key, default)` evaluates `int(opts.get(key, default))` and falls
back to `default` when `int(...)` raises.  A raw option value is either
absent, something `int()` maps to an integer `n` (ints, floats truncated
toward zero, numeric strings), or something `int()` raises on. -/

inductive RawOpt where
  | absent
  | num (n : Int)
  | nonNumeric
  deriving DecidableEq

/-- Embedding of `_opt_int` (lines 28-32): absent keys and non-numeric
values yield the default, numeric values their integer value. -/
def opt_int (raw : RawOpt) (default : Int) : Int :=
  match raw with
  | .absent => default
  | .num n => n
  | .nonNumeric => default

/-- Line 49: `required = _opt_int('required_consistency', 3)`. -/
def required_of (raw : RawOpt) : Int := opt_int raw 3

/-- Line 186: `history_maxlen = required if required and required > 0 else 1`.
The Python condition `required and required > 0` is truthy exactly when
`required > 0` (a zero value is falsy, a negative one fails `> 0`). -/
def history_maxlen_of (required : Int) : Nat :=
  if 0 < required then required.toNat else 1

/-! ## ConsistencyTracker: bounded history and the confirmation check

`history = defaultdict(lambda: deque(maxlen=history_maxlen))` (line 187);
the main loop appends the observed zone (line 930) and confirms at
lines 947-950. -/

/-- `deque(maxlen=m).append`: append on the right, evicting from the left
when the deque is at capacity. -/
def dequeAppend (maxlen : Nat) (h : List α) (x : α) : List α :=
  let h' := h ++ [x]
  if maxlen < h'.length then h'.drop (h'.length - maxlen) else h'

/-- Lines 947-950 of the main loop:
`if len(history[info]) >= history_maxlen and len(set(history[info])) == 1:
   confirmed_zone = history[info][-1]
   if confirmed_zone is not None: persist_mapping(info, confirmed_zone)`.
Returns the zone that gets persisted, if any.  `len(set(h)) == 1` is the
number of distinct entries, embedded via `List.dedup`. -/
def confirmOf (maxlen : Nat) (h : List (Option String)) : Option String :=
  if maxlen ≤ h.length ∧ h.dedup.length = 1 then
    match h.getLast? with
    | some (some z) => some z
    | _ => none
  else none

/-! ## ZoneClassifier (`centroid_to_zone`, lines 173-181)

Zones are an insertion-ordered mapping from name to box; a box that does
not unpack into four values is skipped (`try ... except: continue`). -/

/-- Embedding of `centroid_to_zone` (lines 173-181): scan the zone list in
declaration order; the first four-element box containing the point wins. -/
def centroid_to_zone (cx cy : ℚ) : List (String × List ℚ) → Option String
  | [] => none
  | (name, box) :: rest =>
    match box with
    | [x1, y1, x2, y2] =>
      if x1 ≤ cx ∧ cx ≤ x2 ∧ y1 ≤ cy ∧ cy ≤ y2 then some name
      else centroid_to_zone cx cy rest
    | _ => centroid_to_zone cx cy rest

/-- The containment test of `centroid_to_zone`, as a Boolean predicate on
one (name, box) entry. -/
def boxMatches (cx cy : ℚ) (box : List ℚ) : Bool :=
  match box with
  | [x1, y1, x2, y2] => decide (x1 ≤ cx ∧ cx ≤ x2 ∧ y1 ≤ cy ∧ cy ≤ y2)
  | _ => false

/-! ## InventoryStore (`persist_mapping`, lines 332-342)

`confirmed` is an insertion-ordered dict, the durable file holds the last
successfully dumped copy of it.  The `json.dump` call may raise; the
exception is caught (lines 341-342), so the embedded function is total and
takes the flush outcome as a Boolean oracle.  `writes` counts successful
durable writes. -/

/-- Lookup in an insertion-ordered association list (Python `dict.get`). -/
def alookup [DecidableEq κ] (k : κ) : List (κ × α) → Option α
  | [] => none
  | (k', v) :: rest => if k' = k then some v else alookup k rest

/-- Update in an insertion-ordered association list (Python
`d[k] = v`): replace in place if present, else append. -/
def aset [DecidableEq κ] (k : κ) (v : α) : List (κ × α) → List (κ × α)
  | [] => [(k, v)]
  | (k', v') :: rest => if k' = k then (k, v) :: rest else (k', v') :: aset k v rest

structure StoreState where
  confirmed : List (String × String)
  disk : List (String × String)
  writes : Nat
  deriving DecidableEq

/-- Embedding of `persist_mapping` (lines 332-342).
`prev = confirmed.get(payload); if prev == zone: return` — then the
in-memory update happens before the `try` block around the dump, so a
failed flush (flushOk = false) still leaves the map updated. -/
def persist_mapping (payload zone : String) (flushOk : Bool) (s : StoreState) : StoreState :=
  if alookup payload s.confirmed = some zone then s
  else
    let mem := aset payload zone s.confirmed
    if flushOk then { confirmed := mem, disk := mem, writes := s.writes + 1 }
    else { confirmed := mem, disk := s.disk, writes := s.writes }

/-- Per-detection tail of the main loop (lines 930, 947-950): append the
observed zone to the payload's history, then persist when the
confirmation check fires.  Returns the new history and the new store. -/
def processDetection (maxlen : Nat) (hist : List (Option String)) (s : StoreState)
    (payload : String) (zone : Option String) (flushOk : Bool) :
    List (Option String) × StoreState :=
  let h' := dequeAppend maxlen hist zone
  match confirmOf maxlen h' with
  | some z => (h', persist_mapping payload z flushOk s)
  | none => (h', s)

/-! ## TagDetector (`detect_qr_robust`, lines 542-692)

The OpenCV calls (`detectAndDecodeMulti`, `detectMulti`, perspective
warping, image preprocessing) are external: their raw results enter the
embedding as oracle inputs, one per call site, while all the Python-side
filtering, bucketing, deduplication and bookkeeping around them is
embedded from the source.  Geometry is exact over `ℚ`; since
`_max_edge_len` is only ever compared against thresholds, we track the
squared maximum edge length (the comparison `edge <= 5` becomes
`max_edge_sq <= 25`, faithful because squaring is monotone on
nonnegative lengths). -/

/-- A point in frame-pixel coordinates. -/
abbrev Pt := ℚ × ℚ

/-- The cross-product (shoelace) sum over the closed polygon; `cv2.contourArea`
on a quad contour is half its absolute value. -/
def shoelace (pts : List Pt) : ℚ :=
  ((pts.zip (pts.rotateLeft 1)).map
    (fun ab => ab.1.1 * ab.2.2 - ab.2.1 * ab.1.2)).sum

/-- Embedding of `_quad_area` (lines 347-351): absolute contour area. -/
def quad_area (pts : List Pt) : ℚ := |shoelace pts| / 2

/-- Squared version of `_max_edge_len` (lines 353-362): maximum over the
four cyclic edges of the squared Euclidean edge length. -/
def max_edge_sq (pts : List Pt) : ℚ :=
  ((pts.zip (pts.rotateLeft 1)).map
    (fun ab => (ab.1.1 - ab.2.1) ^ 2 + (ab.1.2 - ab.2.2) ^ 2)).foldl max 0

/-- `np.clip` of the quad onto the frame (lines 509-511):
x into [0, w-1], y into [0, h-1]. -/
def clip_pts (w h : Int) (pts : List Pt) : List Pt :=
  pts.map fun p => (min ((w : ℚ) - 1) (max 0 p.1), min ((h : ℚ) - 1) (max 0 p.2))

/-- Python `int(...)` on a float / NumPy float-to-int32 conversion:
truncation toward zero. -/
def ratTrunc (q : ℚ) : Int := if 0 ≤ q then ⌊q⌋ else ⌈q⌉

/-- `np.mean(pts[:, 0])`. -/
def meanX (pts : List Pt) : ℚ := (pts.map Prod.fst).sum / (pts.length : ℚ)

/-- `np.mean(pts[:, 1])`. -/
def meanY (pts : List Pt) : ℚ := (pts.map Prod.snd).sum / (pts.length : ℚ)

/-- Python `str.strip()`: drop leading and trailing whitespace. -/
def pyStrip (s : String) : String :=
  ⟨(((s.data.dropWhile Char.isWhitespace).reverse).dropWhile Char.isWhitespace).reverse⟩

/-- Raw result of one `qcd.detectAndDecodeMulti` call:
`(retval, decoded_info, points)`.  The call sites wrap it in
`Option`: `none` models the call raising (caught at lines 404-405). -/
structure MultiRaw where
  retval : Bool
  info : Option (List String)
  points : Option (List (Option (List Pt)))

/-- Raw result of one `qcd.detectMulti` call (`(ok, points)`); `none` at
the call site models the call raising (lines 430-431). -/
structure PointsRaw where
  ok : Bool
  points : Option (List (Option (List Pt)))

/-- Embedding of `_detect_and_decode_multi` (lines 399-425): pairs with a
four-point geometry and a nonempty stripped payload become decoded
results, four-point geometries without payload become candidates,
everything else is dropped. -/
def detect_and_decode_multi : Option MultiRaw → List (String × List Pt) × List (List Pt)
  | none => ([], [])
  | some r =>
    match r.retval, r.points with
    | true, some ptsList =>
      let infos :=
        match r.info with
        | some l => l
        | none => List.replicate ptsList.length ""
      (infos.zip ptsList).foldl
        (fun acc pr =>
          match pr.2 with
          | none => acc
          | some pts =>
            if pts.length = 4 then
              let payload := pyStrip pr.1
              if payload = "" then (acc.1, acc.2 ++ [pts])
              else (acc.1 ++ [(payload, pts)], acc.2)
            else acc)
        ([], [])
    | _, _ => ([], [])

/-- Embedding of `_detect_points` (lines 427-441): keep the four-point
geometries. -/
def detect_points : Option PointsRaw → List (List Pt)
  | none => []
  | some r =>
    match r.ok, r.points with
    | true, some ptsList =>
      ptsList.foldl
        (fun acc op =>
          match op with
          | none => acc
          | some pts => if pts.length = 4 then acc ++ [pts] else acc)
        []
    | _, _ => []

/-- Oracle bundle for one `detect_qr_robust` cycle: the raw OpenCV results
at every call site.  `pass1` lists, per preprocessing variant of the frame
(lines 565-584), the `detectAndDecodeMulti` and `detectMulti` results;
`pass2 zi si` gives, for the crop of zone index `zi` at ROI-scale index
`si`, the `detectMulti` and `detectAndDecodeMulti` results (lines
613-617); `warpOk` tells whether the perspective warp of a (clipped) quad
succeeds (lines 520-525); `warpDecode` is the result of
`_decode_warp_variants` on the warped patch (`""` = no decode, lines
527-540); `diagScore` is the `_certainty_score` diagnostic computed from
the warped patch (lines 376-388). -/
structure DetOracle where
  pass1 : List (Option MultiRaw × Option PointsRaw)
  pass2 : Nat → Nat → Option PointsRaw × Option MultiRaw
  warpOk : List Pt → Bool
  warpDecode : List Pt → String
  diagScore : List Pt → ℚ

/-- The configuration options read by `detect_qr_robust`. -/
structure DetConfig where
  zone_fallback : Bool
  roi_padding_px : Int
  roi_scales : List ℚ
  max_candidates : Nat

/-- Embedding of `_warp_patch` (lines 503-525): clip the quad to the
frame; fail when the longest clipped edge is ≤ 5 px (`edge <= 5`, squared
here) or when the OpenCV perspective calls raise; on success the warped
patch is identified by its clipped source quad. -/
def warp_patch (w h : Int) (o : DetOracle) (pts : List Pt) : Option (List Pt) :=
  let cp := clip_pts w h pts
  if max_edge_sq cp ≤ 25 then none
  else if o.warpOk cp then some cp else none

structure BestEntry where
  pts : List Pt
  area : ℚ
  score : Option ℚ
  deriving DecidableEq

/-- Embedding of `add_best` (lines 549-553): per payload keep the quad of
strictly larger area (first seen wins ties); `best` is an
insertion-ordered dict. -/
def add_best (best : List (String × BestEntry)) (payload : String) (pts : List Pt)
    (score : Option ℚ) : List (String × BestEntry) :=
  let area := quad_area pts
  match alookup payload best with
  | none => best ++ [(payload, ⟨pts, area, score⟩)]
  | some prev => if prev.area < area then aset payload ⟨pts, area, score⟩ best else best

structure CandEntry where
  pts : List Pt
  area : ℚ
  deriving DecidableEq

/-- Embedding of `add_candidate` (lines 555-562): bucket undecoded quads
by the 20-px floor-divided centroid, keeping the larger area per bucket. -/
def add_candidate (cand : List ((Int × Int) × CandEntry)) (pts : List Pt) :
    List ((Int × Int) × CandEntry) :=
  let key := (⌊meanX pts / 20⌋, ⌊meanY pts / 20⌋)
  let area := quad_area pts
  match alookup key cand with
  | none => cand ++ [(key, ⟨pts, area⟩)]
  | some prev => if prev.area < area then aset key ⟨pts, area⟩ cand else cand

/-- Pass-1 `add_best` arguments in program order (lines 565-578): per
variant, every directly decoded (payload, quad) pair, with the score
present exactly when the diagnostic warp succeeded. -/
def pass1Decoded (o : DetOracle) (w h : Int) : List (String × List Pt × Option ℚ) :=
  o.pass1.foldl
    (fun acc vr =>
      acc ++ (detect_and_decode_multi vr.1).1.map
        (fun pp => (pp.1, pp.2, (warp_patch w h o pp.2).map o.diagScore)))
    []

/-- Pass-1 `add_candidate` arguments in program order (lines 580-584):
per variant, the undecoded quads then the `detectMulti` geometries. -/
def pass1Cands (o : DetOracle) : List (List Pt) :=
  o.pass1.foldl
    (fun acc vr => acc ++ (detect_and_decode_multi vr.1).2 ++ detect_points vr.2)
    []

/-- Crop rectangle of pass 2 (lines 588-599): truncate the box to ints,
pad by `max 0 roi_padding_px`, clamp to the frame; `none` when the box
does not unpack into four values or the padded rectangle is empty.  (The
source's later `roi.size == 0` check is subsumed by the emptiness check.) -/
def zone_crop (w h pad0 : Int) (box : List ℚ) : Option (Int × Int × Int × Int) :=
  match box with
  | [b1, b2, b3, b4] =>
    let pad := max 0 pad0
    let x1p := max 0 (ratTrunc b1 - pad)
    let y1p := max 0 (ratTrunc b2 - pad)
    let x2p := min (w - 1) (ratTrunc b3 + pad)
    let y2p := min (h - 1) (ratTrunc b4 + pad)
    if x2p ≤ x1p ∨ y2p ≤ y1p then none else some (x1p, y1p, x2p, y2p)
  | _ => none

/-- Lines 607-609: `sc = float(sc) if sc else 1.0; if sc <= 0: sc = 1.0`. -/
def eff_scale (sc0 : ℚ) : ℚ :=
  let sc := if sc0 = 0 then 1 else sc0
  if sc ≤ 0 then 1 else sc

/-- Map crop-local geometry back to full-frame coordinates (line 614):
`(pts / sc) + [x1p, y1p]`. -/
def map_back (sc : ℚ) (x1p y1p : Int) (pts : List Pt) : List Pt :=
  pts.map fun p => (p.1 / sc + (x1p : ℚ), p.2 / sc + (y1p : ℚ))

/-- Pass-2 `add_best` arguments in program order (lines 586-629). -/
def pass2Decoded (cfg : DetConfig) (o : DetOracle) (w h : Int)
    (zones : List (String × List ℚ)) : List (String × List Pt × Option ℚ) :=
  if cfg.zone_fallback && !zones.isEmpty then
    zones.enum.foldl
      (fun acc znb =>
        match zone_crop w h cfg.roi_padding_px znb.2.2 with
        | none => acc
        | some (x1p, y1p, _, _) =>
          cfg.roi_scales.enum.foldl
            (fun acc2 ssc =>
              let sc := eff_scale ssc.2
              acc2 ++ (detect_and_decode_multi (o.pass2 znb.1 ssc.1).2).1.map
                (fun pp =>
                  let ptsF := map_back sc x1p y1p pp.2
                  (pp.1, ptsF, (warp_patch w h o ptsF).map o.diagScore)))
            acc)
      []
  else []

/-- Pass-2 `add_candidate` arguments in program order (lines 586-633):
per crop and scale, the `detectMulti` geometries first, then the
undecoded `detectAndDecodeMulti` quads, all mapped back to full-frame
coordinates. -/
def pass2Cands (cfg : DetConfig) (o : DetOracle) (w h : Int)
    (zones : List (String × List ℚ)) : List (List Pt) :=
  if cfg.zone_fallback && !zones.isEmpty then
    zones.enum.foldl
      (fun acc znb =>
        match zone_crop w h cfg.roi_padding_px znb.2.2 with
        | none => acc
        | some (x1p, y1p, _, _) =>
          cfg.roi_scales.enum.foldl
            (fun acc2 ssc =>
              let sc := eff_scale ssc.2
              (acc2 ++ (detect_points (o.pass2 znb.1 ssc.1).1).map (map_back sc x1p y1p))
                ++ (detect_and_decode_multi (o.pass2 znb.1 ssc.1).2).2.map
                    (map_back sc x1p y1p))
            acc)
      []
  else []

/-- The candidate dict after passes 1-2 (`cand`, line 547), in insertion
order; the two dicts `best` and `cand` are independent, so folding their
call sequences separately is equivalent to the source's interleaving. -/
def cand_map (cfg : DetConfig) (o : DetOracle) (w h : Int)
    (zones : List (String × List ℚ)) : List ((Int × Int) × CandEntry) :=
  (pass1Cands o ++ pass2Cands cfg o w h zones).foldl add_candidate []

/-- Stable insertion into a non-increasing-by-area list: a new entry goes
after every entry of `≥` area, so equal areas keep their original
relative order. -/
def insertByAreaDesc (x : CandEntry) : List CandEntry → List CandEntry
  | [] => [x]
  | y :: t => if y.area < x.area then x :: y :: t else y :: insertByAreaDesc x t

/-- Stable sort by area, largest first — the order produced by Python's
stable `sorted(..., key=lambda v: v["area"], reverse=True)`. -/
def sortByAreaDesc (l : List CandEntry) : List CandEntry :=
  l.foldl (fun acc x => insertByAreaDesc x acc) []

/-- Line 636: `sorted(cand.values(), key=..., reverse=True)[:max_candidates]`. -/
def cand_items (cfg : DetConfig) (o : DetOracle) (w h : Int)
    (zones : List (String × List ℚ)) : List CandEntry :=
  (sortByAreaDesc ((cand_map cfg o w h zones).map Prod.snd)).take cfg.max_candidates

/-- Pass-3 `add_best` arguments in program order (lines 644-673): each
surviving candidate is warped; on a successful warp and a nonempty
`_decode_warp_variants` result, the candidate is promoted with its
original (unclipped) quad and an always-present score.  (The debug
logging and image saving in this loop touch no detection state.) -/
def pass3Promoted (cfg : DetConfig) (o : DetOracle) (w h : Int)
    (zones : List (String × List ℚ)) : List (String × List Pt × Option ℚ) :=
  (cand_items cfg o w h zones).foldl
    (fun acc item =>
      match warp_patch w h o item.pts with
      | none => acc
      | some cp =>
        let payload := o.warpDecode cp
        if payload = "" then acc
        else acc ++ [(payload, item.pts, some (o.diagScore cp))])
    []

/-- All `add_best` calls of one cycle, in program order. -/
def allPromoted (cfg : DetConfig) (o : DetOracle) (w h : Int)
    (zones : List (String × List ℚ)) : List (String × List Pt × Option ℚ) :=
  (pass1Decoded o w h ++ pass2Decoded cfg o w h zones) ++ pass3Promoted cfg o w h zones

/-- The `best` dict as a fold of the `add_best` call sequence. -/
def bestOf (evs : List (String × List Pt × Option ℚ)) : List (String × BestEntry) :=
  evs.foldl (fun b ev => add_best b ev.1 ev.2.1 ev.2.2) []

/-- One output detection (lines 683-690); `diag` is omitted as purely
informational. -/
structure Detection where
  payload : String
  points : List Pt
  centroid : Int × Int
  zone : Option String
  score : Option ℚ
  deriving DecidableEq

/-- Embedding of `detect_qr_robust` (lines 542-692): build the output
list from the `best` dict in insertion order, with truncated-mean
centroid and zone classification (lines 676-692). -/
def detect_qr_robust (cfg : DetConfig) (o : DetOracle) (w h : Int)
    (zones : List (String × List ℚ)) : List Detection :=
  (bestOf (allPromoted cfg o w h zones)).map fun pv =>
    let cx := ratTrunc (meanX pv.2.pts)
    let cy := ratTrunc (meanY pv.2.pts)
    { payload := pv.1, points := pv.2.pts, centroid := (cx, cy),
      zone := centroid_to_zone (cx : ℚ) (cy : ℚ) zones, score := pv.2.score }

/-! ## OverlayRenderer (`draw_overlay`, lines 710-804)

`cv2.rectangle`, `cv2.polylines` and `cv2.putText` mutate their first
argument in place, so images live on an explicit heap of drawing
surfaces; each surface records the draw calls applied to it.
`out = frame.copy()` (line 717) allocates a fresh heap slot and every
draw call in the function targets `out`.  `cv2.getTextSize` and the
f-string score formatting are external and enter as oracles; colors and
font constants carry no information for the properties at stake and are
not recorded. -/

structure Image where
  base : Nat
  rects : List ((Int × Int) × (Int × Int) × Bool)
  polys : List (List (Int × Int))
  texts : List (String × (Int × Int))
  deriving DecidableEq

/-- The heap of images: ids are indices, `copy` appends. -/
abbrev ImgHeap := List Image

/-- External text helpers: `cv2.getTextSize` returning
`((tw, th), baseline)`, and the `f"[payload]  ([score])"` debug label
(line 774). -/
structure TextOracle where
  textSize : String → (Int × Int) × Int
  fmtScore : String → ℚ → String

/-- `cv2.rectangle` on a surface (`thickness = -1` is `filled`). -/
def drawRect (img : Image) (p1 p2 : Int × Int) (filled : Bool) : Image :=
  { img with rects := img.rects ++ [(p1, p2, filled)] }

/-- `cv2.polylines` on a surface. -/
def drawPolylines (img : Image) (pts : List (Int × Int)) : Image :=
  { img with polys := img.polys ++ [pts] }

/-- `cv2.putText` on a surface. -/
def drawText (img : Image) (s : String) (org : Int × Int) : Image :=
  { img with texts := img.texts ++ [(s, org)] }

/-- Python `.replace("\n", " ").replace("\r", " ")` of `_safe_label`. -/
def newlinesToSpaces (s : String) : String :=
  ⟨s.data.map (fun c => if c = '\n' ∨ c = '\r' then ' ' else c)⟩

/-- Embedding of `_safe_label` (lines 710-714): newlines to spaces,
strip, and truncate to `maxLen` with an ellipsis. -/
def safe_label (s : String) (maxLen : Nat) : String :=
  let t := pyStrip (newlinesToSpaces s)
  if maxLen < t.length then ⟨t.data.take (maxLen - 1)⟩ ++ "…" else t

/-- `np.int32` conversion of one quad point (line 763): truncation. -/
def truncPt (p : Pt) : Int × Int := (ratTrunc p.1, ratTrunc p.2)

/-- Zone drawing (lines 721-756): clamp the int-truncated box, skip
degenerate boxes, draw the outline rectangle, then the label background
and text when the 32-char safe label is nonempty. -/
def draw_zone (w h : Int) (tor : TextOracle) (img : Image) (znb : String × List ℚ) : Image :=
  match znb.2 with
  | [b1, b2, b3, b4] =>
    let x1 := max 0 (min (ratTrunc b1) (w - 1))
    let x2 := max 0 (min (ratTrunc b3) (w - 1))
    let y1 := max 0 (min (ratTrunc b2) (h - 1))
    let y2 := max 0 (min (ratTrunc b4) (h - 1))
    if x2 ≤ x1 ∨ y2 ≤ y1 then img
    else
      let img1 := drawRect img (x1, y1) (x2, y2) false
      let label := safe_label znb.1 32
      if label = "" then img1
      else
        let twhb := tor.textSize label
        let pad : Int := 3
        let lx2 := min (w - 1) (x1 + twhb.1.1 + pad * 2)
        let ly2 := min (h - 1) (y1 + twhb.1.2 + twhb.2 + pad * 2)
        drawText (drawRect img1 (x1, y1) (lx2, ly2) true)
          label (x1 + pad, min (h - 1) (y1 + twhb.1.2 + pad))
  | _ => img

/-- Detection drawing (lines 759-802): skip empty point lists, truncate
the quad to int32 and draw it as a closed polyline, then the label
background and text anchored at the first vertex. -/
def draw_det (w h : Int) (tor : TextOracle) (debugMetrics : Bool) (img : Image)
    (det : Detection) : Image :=
  if det.points = [] then img
  else
    let pts := det.points.map truncPt
    if pts = [] then img
    else
      let img1 := drawPolylines img pts
      let label0 :=
        match debugMetrics, det.score with
        | true, some sc => tor.fmtScore det.payload sc
        | _, _ => det.payload
      let label := safe_label label0 96
      if label = "" then img1
      else
        match pts with
        | [] => img1
        | (x, y) :: _ =>
          let twhb := tor.textSize label
          let pad : Int := 4
          let x1 := max 0 x
          let y1 := max 0 (y - twhb.1.2 - twhb.2 - pad * 2)
          let x2 := min (w - 1) (x + twhb.1.1 + pad * 2)
          let y2 := min (h - 1) y
          drawText (drawRect img1 (x1, y1) (x2, y2) true) label (x + pad, max 0 (y - pad))

/-- The drawing body of `draw_overlay` applied to the copied surface:
zones first (lines 721-756), detections second (lines 759-802). -/
def render_on (w h : Int) (tor : TextOracle) (debugMetrics : Bool) (img : Image)
    (dets : List Detection) (zones : List (String × List ℚ)) : Image :=
  let img1 := if zones.isEmpty then img else zones.foldl (draw_zone w h tor) img
  dets.foldl (draw_det w h tor debugMetrics) img1

/-- Embedding of `draw_overlay` (lines 716-804): copy the frame into a
fresh heap slot (`out = frame.copy()`), draw on that slot only, and
return the heap together with the new image's id. -/
def draw_overlay (hp : ImgHeap) (frameId : Nat) (w h : Int) (tor : TextOracle)
    (debugMetrics : Bool) (dets : List Detection) (zones : List (String × List ℚ)) :
    ImgHeap × Nat :=
  let frame := hp.getD frameId ⟨0, [], [], []⟩
  (hp ++ [render_on w h tor debugMetrics frame dets zones], hp.length)

/-! ## StateServer (`STATE`, `OverlayHandler.do_GET`, lines 697-870) -/

/-- The published snapshot (`STATE`, lines 698-704).  PNG encodings are
abstract byte lists; `last_frame_info` is the `fi` dict of lines 956-962,
held abstractly as name-value pairs. -/
structure SrvState where
  ts : Nat
  frame_png : Option (List Nat)
  overlay_png : Option (List Nat)
  detections : List Detection
  last_frame_info : List (String × Nat)
  deriving DecidableEq

/-- The initial `STATE` (lines 698-704): timestamp 0, no images, no
detections — in place before any cycle has completed. -/
def initialState : SrvState :=
  { ts := 0, frame_png := none, overlay_png := none, detections := [], last_frame_info := [] }

/-- A response, by route: the `_send` calls of `do_GET`. -/
inductive Body where
  | html (ts : Nat) (fi : List (String × Nat))
  | png (bytes : List Nat)
  | text (msg : String)
  | jsonDet (ts : Nat) (dets : List Detection) (fi : List (String × Nat))
  deriving DecidableEq

/-- Embedding of `OverlayHandler.do_GET` (lines 815-857): the five STATE
fields are copied under one `STATE_LOCK` acquisition, then dispatched on
the request path; `overlayName` is the configured `OVERLAY_PNG_NAME`
(`/overlay.png` is always an alias). -/
def do_GET (overlayName path : String) (st : SrvState) : Nat × Body :=
  if path = "/" ∨ path = "/index.html" then
    (200, .html st.ts st.last_frame_info)
  else if path = "/overlay.png" ∨ path = "/" ++ overlayName then
    match st.overlay_png with
    | none => (503, .text "overlay not ready")
    | some b => (200, .png b)
  else if path = "/frame.png" then
    match st.frame_png with
    | none => (503, .text "frame not ready")
    | some b => (200, .png b)
  else if path = "/detections.json" then
    (200, .jsonDet st.ts st.detections st.last_frame_info)
  else (404, .text "not found")

/-- The writer's publication (lines 968-973): all five fields replaced
under one `STATE_LOCK` acquisition. -/
def publish (ts : Nat) (fp op : Option (List Nat)) (dets : List Detection)
    (fi : List (String × Nat)) (_ : SrvState) : SrvState :=
  { ts := ts, frame_png := fp, overlay_png := op, detections := dets, last_frame_info := fi }

/-! ## Snapshot concurrency (`STATE_LOCK`, lines 697, 818-823, 968-973)

The only cross-thread state is the five-field `STATE` dict; the writer
(main loop) assigns all five fields inside `with STATE_LOCK`
(lines 968-973) and a reader copies all five inside `with STATE_LOCK`
(lines 818-823).  The interleaving of the two threads is modelled as a
transition system whose atomic actions are single field accesses plus
lock acquire/release; `acquire` blocks while the lock is held. -/

inductive Holder where
  | writer
  | reader
  deriving DecidableEq

/-- Interleaving state: `wpc`/`rpc` are program counters into the two
critical sections (0 = before `acquire`, `1 + i` = about to access field
`i`, 6 = about to release; the reader halts at 7).  `wcycle` numbers the
snapshot being published; `fields i` holds the number of the snapshot
that last wrote field `i` (0 = the initial `STATE`), `regs` the reader's
copies. -/
@[ext]
structure Sys where
  lock : Option Holder
  wpc : Nat
  wcycle : Nat
  rpc : Nat
  fields : Fin 5 → Nat
  regs : Fin 5 → Nat

def sysInit : Sys :=
  { lock := none, wpc := 0, wcycle := 0, rpc := 0, fields := (fun _ => 0), regs := (fun _ => 0) }

/-- One atomic action of either thread. -/
inductive Step : Sys → Sys → Prop where
  | wAcquire (s : Sys) (h : s.lock = none) (hw : s.wpc = 0) :
      Step s { s with lock := some .writer, wpc := 1, wcycle := s.wcycle + 1 }
  | wWrite (s : Sys) (i : Fin 5) (hw : s.wpc = i.val + 1) :
      Step s { s with fields := Function.update s.fields i s.wcycle, wpc := s.wpc + 1 }
  | wRelease (s : Sys) (hw : s.wpc = 6) :
      Step s { s with lock := none, wpc := 0 }
  | rAcquire (s : Sys) (h : s.lock = none) (hr : s.rpc = 0) :
      Step s { s with lock := some .reader, rpc := 1 }
  | rRead (s : Sys) (i : Fin 5) (hr : s.rpc = i.val + 1) :
      Step s { s with regs := Function.update s.regs i (s.fields i), rpc := s.rpc + 1 }
  | rRelease (s : Sys) (hr : s.rpc = 6) :
      Step s { s with lock := none, rpc := 7 }

/-- Reachability from the initial state. -/
def Reach (s : Sys) : Prop := Relation.ReflTransGen Step sysInit s

/-- The protocol invariant: the lock discipline ties the counters to the
lock holder; all fields agree whenever the writer is idle; written
prefixes carry the current cycle; the reader's copies mirror the fields
while it holds the lock; after the reader finishes, its copies agree. -/
def SysInv (s : Sys) : Prop :=
  s.wpc ≤ 6 ∧ s.rpc ≤ 7 ∧
  (s.lock = some .writer ↔ 1 ≤ s.wpc ∧ s.wpc ≤ 6) ∧
  (s.lock = some .reader ↔ 1 ≤ s.rpc ∧ s.rpc ≤ 6) ∧
  (s.wpc = 0 → ∀ i j : Fin 5, s.fields i = s.fields j) ∧
  (∀ i : Fin 5, i.val + 1 < s.wpc → s.fields i = s.wcycle) ∧
  (∀ i : Fin 5, i.val + 1 < s.rpc → s.rpc ≤ 6 → s.regs i = s.fields i) ∧
  (s.rpc = 7 → ∀ i j : Fin 5, s.regs i = s.regs j)

/-! ### Tracker lemmas -/

theorem dequeAppend_length_le (maxlen : Nat) (h : List α) (x : α)
    (hh : h.length ≤ maxlen) : (dequeAppend maxlen h x).length ≤ maxlen := by
  unfold dequeAppend
  by_cases hc : maxlen < (h ++ [x]).length
  · simp only [hc, if_true, List.length_drop]
    omega
  · simp only [hc, if_false]
    simp only [List.length_append, List.length_singleton] at *
    omega

theorem foldl_dequeAppend_length_le (maxlen : Nat) (obs : List α) (h : List α)
    (hh : h.length ≤ maxlen) : (obs.foldl (dequeAppend maxlen) h).length ≤ maxlen := by
  induction obs generalizing h with
  | nil => simpa using hh
  | cons o rest ih =>
    simp only [List.foldl_cons]
    exact ih _ (dequeAppend_length_le maxlen h o hh)

/-- If every entry of `x :: t` equals `x`, its dedup is `[x]`. -/
theorem dedup_all_eq [DecidableEq α] (x : α) (t : List α)
    (ht : ∀ e ∈ t, e = x) : (x :: t).dedup = [x] := by
  induction t with
  | nil => simp
  | cons y s ih =>
    have hy : y = x := ht y (by simp)
    subst hy
    have hx : y ∈ y :: s := by simp
    rw [List.dedup_cons_of_mem hx]
    exact ih fun e he => ht e (by simp [he])

/-- `len(set(h)) == 1` holds exactly when `h` is nonempty and all its
entries coincide. -/
theorem dedup_length_one_iff [DecidableEq α] (h : List α) :
    h.dedup.length = 1 ↔ h ≠ [] ∧ ∀ e ∈ h, ∀ e' ∈ h, e = e' := by
  constructor
  · intro h1
    have hne : h ≠ [] := by
      intro he; subst he; simp at h1
    refine ⟨hne, ?_⟩
    obtain ⟨a, ha⟩ : ∃ a, h.dedup = [a] := by
      match he : h.dedup with
      | [] => rw [he] at h1; simp at h1
      | [a] => exact ⟨a, rfl⟩
      | a :: b :: t => rw [he] at h1; simp at h1
    have hmem : ∀ e ∈ h, e = a := by
      intro e he
      have : e ∈ h.dedup := (List.mem_dedup).2 he
      rw [ha] at this
      simpa using this
    intro e he e' he'
    rw [hmem e he, hmem e' he']
  · rintro ⟨hne, hall⟩
    match h with
    | [] => exact absurd rfl hne
    | x :: t =>
      have ht : ∀ e ∈ t, e = x :=
        fun e he => hall e (by simp [he]) x (by simp)
      rw [dedup_all_eq x t ht]
      rfl

/-- With one slot, a deque append always leaves exactly the new element. -/
theorem dequeAppend_one (h : List α) (x : α) : dequeAppend 1 h x = [x] := by
  unfold dequeAppend
  match h with
  | [] => simp
  | a :: t =>
    have hlen : 1 < (a :: t ++ [x]).length := by simp
    simp only [hlen, if_true]
    have : (a :: t ++ [x]).length - 1 = t.length + 1 := by simp
    rw [this]
    have : a :: t ++ [x] = (a :: t) ++ [x] := rfl
    rw [this, List.drop_append_of_le_length (by simp)]
    simp

/-- Characterisation of the main-loop confirmation check on a history that
respects the deque capacity bound: it fires with zone `z` exactly when the
history is full and every entry is `some z`. -/
theorem confirmOf_eq_some_iff (N : Nat) (hN : 1 ≤ N) (h : List (Option String))
    (hlen : h.length ≤ N) (z : String) :
    confirmOf N h = some z ↔ (h.length = N ∧ ∀ e ∈ h, e = some z) := by
  unfold confirmOf
  by_cases hc : N ≤ h.length ∧ h.dedup.length = 1
  · rw [if_pos hc]
    obtain ⟨hc1, hc2⟩ := hc
    have hlenN : h.length = N := le_antisymm hlen hc1
    rw [dedup_length_one_iff] at hc2
    obtain ⟨hne, hall⟩ := hc2
    have hgl : h.getLast? = some (h.getLast hne) := List.getLast?_eq_getLast h hne
    have hglmem : h.getLast hne ∈ h := List.getLast_mem hne
    rw [hgl]
    cases hlast : h.getLast hne with
    | none =>
      simp only []
      constructor
      · intro habs; exact absurd habs (by simp)
      · rintro ⟨-, hz⟩
        have := hz _ hglmem
        rw [hlast] at this
        exact absurd this (by simp)
    | some z' =>
      simp only []
      constructor
      · intro heq
        have hz' : z' = z := by
          have : (some z' : Option String) = some z := heq
          exact Option.some.inj this
        subst hz'
        refine ⟨hlenN, fun e he => ?_⟩
        have := hall e he _ hglmem
        rw [this, hlast]
      · rintro ⟨-, hz⟩
        have := hz _ hglmem
        rw [hlast] at this
        rw [Option.some.inj this]
  · rw [if_neg hc]
    constructor
    · intro habs; exact absurd habs (by simp)
    · rintro ⟨hlenN, hz⟩
      exfalso
      apply hc
      refine ⟨le_of_eq hlenN.symm, ?_⟩
      rw [dedup_length_one_iff]
      have hne : h ≠ [] := by
        intro he; subst he; simp at hlenN; omega
      exact ⟨hne, fun e he e' he' => by rw [hz e he, hz e' he']⟩

/-- C1: for every required-consistency `N ≥ 1` (the code guarantees
`history_maxlen ≥ 1`, see `history_maxlen_of`) and every sequence of
observed zones folded into the bounded per-payload history, the main loop
confirms zone `z` (lines 947-950) if and only if the history is full
(`length = N`) and every entry equals `some z`; in particular it never
confirms on a shorter history, never with two distinct entries, and
never on `none`. -/
theorem consistency_confirms_iff (N : Nat) (hN : 1 ≤ N)
    (obs : List (Option String)) (z : String) :
    confirmOf N (obs.foldl (dequeAppend N) []) = some z ↔
      ((obs.foldl (dequeAppend N) []).length = N ∧
        ∀ e ∈ obs.foldl (dequeAppend N) [], e = some z) := by
  exact confirmOf_eq_some_iff N hN _ (foldl_dequeAppend_length_le N obs [] (by simp)) z

theorem consistency_confirms_iff_witness :
    1 ≤ 2 ∧
      (confirmOf 2 (([some "A", some "A"] : List (Option String)).foldl (dequeAppend 2) []) =
          some "A" ↔
        ((([some "A", some "A"] : List (Option String)).foldl (dequeAppend 2) []).length = 2 ∧
          ∀ e ∈ ([some "A", some "A"] : List (Option String)).foldl (dequeAppend 2) [],
            e = some "A")) :=
  ⟨by decide, consistency_confirms_iff 2 (by decide) [some "A", some "A"] "A"⟩

/-- C10 counterexample: a non-numeric `required_consistency` does not give
capacity 1 — `_opt_int` falls back to the default 3 (line 49), so the
history capacity is 3 and a single non-none observation does not confirm. -/
theorem history_capacity_nonnumeric_counterexample :
    history_maxlen_of (required_of .nonNumeric) = 3 ∧
    ¬ history_maxlen_of (required_of .nonNumeric) = 1 ∧
    confirmOf (history_maxlen_of (required_of .nonNumeric))
      (dequeAppend (history_maxlen_of (required_of .nonNumeric)) [] (some "A")) = none := by
  refine ⟨rfl, by decide, ?_⟩
  decide

/-- With capacity 1, a single non-none observation confirms at once. -/
theorem confirmOf_one_some (z : String) : confirmOf 1 [some z] = some z := by
  unfold confirmOf
  rw [if_pos]
  · rfl
  · refine ⟨le_refl 1, ?_⟩
    rw [List.dedup_cons_of_not_mem (List.not_mem_nil _)]
    rfl

/-- C10 amended: a zero or negative configured required-consistency yields
history capacity 1 (never 0), and the tracker then behaves exactly as
`N = 1`: every single non-none observation immediately confirms and is
persisted, while `none` never confirms.  A non-numeric value instead
falls back to the default 3, giving capacity 3. -/
theorem history_capacity_amended (n : Int) (hn : n ≤ 0)
    (h : List (Option String)) (s : StoreState) (p z : String) :
    history_maxlen_of (required_of (.num n)) = 1 ∧
    history_maxlen_of (required_of .nonNumeric) = 3 ∧
    confirmOf 1 (dequeAppend 1 h (some z)) = some z ∧
    confirmOf 1 (dequeAppend 1 h none) = none ∧
    (processDetection 1 h s p (some z) true).2 = persist_mapping p z true s := by
  refine ⟨?_, by decide, ?_, ?_, ?_⟩
  · simp only [history_maxlen_of, required_of, opt_int]
    rw [if_neg (by omega)]
  · rw [dequeAppend_one]
    exact confirmOf_one_some z
  · rw [dequeAppend_one]
    decide
  · simp only [processDetection, dequeAppend_one, confirmOf_one_some]

theorem history_capacity_amended_witness :
    (-2 : Int) ≤ 0 ∧
      (history_maxlen_of (required_of (.num (-2))) = 1 ∧
        history_maxlen_of (required_of .nonNumeric) = 3 ∧
        confirmOf 1 (dequeAppend 1 [] (some "ShelfA")) = some "ShelfA" ∧
        confirmOf 1 (dequeAppend 1 [] none) = none ∧
        (processDetection 1 [] ⟨[], [], 0⟩ "BOX-001" (some "ShelfA") true).2 =
          persist_mapping "BOX-001" "ShelfA" true ⟨[], [], 0⟩) :=
  ⟨by decide, history_capacity_amended (-2) (by decide) [] ⟨[], [], 0⟩ "BOX-001" "ShelfA"⟩

/-! ### Store lemmas -/

theorem alookup_aset_self [DecidableEq κ] (k : κ) (v : α) (l : List (κ × α)) :
    alookup k (aset k v l) = some v := by
  induction l with
  | nil => simp [aset, alookup]
  | cons kv rest ih =>
    obtain ⟨a, b⟩ := kv
    by_cases hk : a = k
    · simp [aset, alookup, hk]
    · simp [aset, alookup, hk, ih]

theorem alookup_aset_ne [DecidableEq κ] (k k' : κ) (hk : k' ≠ k) (v : α) (l : List (κ × α)) :
    alookup k (aset k' v l) = alookup k l := by
  induction l with
  | nil => simp [aset, alookup, hk]
  | cons kv rest ih =>
    obtain ⟨a, b⟩ := kv
    by_cases h1 : a = k'
    · subst h1
      simp [aset, alookup, hk]
    · have hset : aset k' v ((a, b) :: rest) = (a, b) :: aset k' v rest := by
        simp [aset, h1]
      rw [hset]
      by_cases h2 : a = k
      · simp [alookup, h2]
      · simp [alookup, h2, ih]

/-- A `persist_mapping` call whose stored mapping already matches is a
complete no-op. -/
theorem persist_mapping_noop (p z : String) (ok : Bool) (s : StoreState)
    (hc : alookup p s.confirmed = some z) : persist_mapping p z ok s = s := by
  unfold persist_mapping
  rw [if_pos hc]

/-- A failed flush on a changed mapping updates memory only. -/
theorem persist_mapping_failed (p z : String) (s : StoreState)
    (hc : ¬ alookup p s.confirmed = some z) :
    persist_mapping p z false s =
      { confirmed := aset p z s.confirmed, disk := s.disk, writes := s.writes } := by
  unfold persist_mapping
  rw [if_neg hc]
  rfl

/-- A successful flush on a changed mapping updates memory and disk and
counts one durable write. -/
theorem persist_mapping_success (p z : String) (s : StoreState)
    (hc : ¬ alookup p s.confirmed = some z) :
    persist_mapping p z true s =
      { confirmed := aset p z s.confirmed, disk := aset p z s.confirmed,
        writes := s.writes + 1 } := by
  unfold persist_mapping
  rw [if_neg hc]
  rfl

/-- After any `persist_mapping p z`, the in-memory map sends `p` to `z`. -/
theorem persist_mapping_lookup (p z : String) (ok : Bool) (s : StoreState) :
    alookup p (persist_mapping p z ok s).confirmed = some z := by
  by_cases hc : alookup p s.confirmed = some z
  · rw [persist_mapping_noop p z ok s hc]; exact hc
  · cases ok
    · rw [persist_mapping_failed p z s hc]
      exact alookup_aset_self p z s.confirmed
    · rw [persist_mapping_success p z s hc]
      exact alookup_aset_self p z s.confirmed

/-- C5 counterexample: with the stored mapping for the payload already
equal to the zone, two consecutive `persist_mapping` calls perform zero
durable writes, not exactly one. -/
theorem persist_twice_counterexample :
    ¬ ((persist_mapping "BOX-001" "ShelfA" true
          (persist_mapping "BOX-001" "ShelfA" true
            ⟨[("BOX-001", "ShelfA")], [("BOX-001", "ShelfA")], 0⟩)).writes =
        (⟨[("BOX-001", "ShelfA")], [("BOX-001", "ShelfA")], 0⟩ : StoreState).writes + 1) := by
  decide

/-- C5 amended: `persist_mapping` is idempotent — the second of two equal
calls is always a complete no-op (stored mapping already equals the zone),
so the pair performs at most one durable write; it performs exactly one
write precisely when the stored mapping initially differed from the zone
and the flush succeeded.  (With an initially equal mapping, or a failed
flush, zero durable writes happen.) -/
theorem persist_idempotent_amended (p z : String) (s : StoreState) (ok1 ok2 : Bool) :
    persist_mapping p z ok2 (persist_mapping p z ok1 s) = persist_mapping p z ok1 s ∧
    (persist_mapping p z ok1 s).writes ≤ s.writes + 1 ∧
    ((persist_mapping p z ok1 s).writes = s.writes + 1 ↔
      alookup p s.confirmed ≠ some z ∧ ok1 = true) := by
  refine ⟨?_, ?_, ?_⟩
  · exact persist_mapping_noop p z ok2 _ (persist_mapping_lookup p z ok1 s)
  · by_cases hc : alookup p s.confirmed = some z
    · rw [persist_mapping_noop p z ok1 s hc]; omega
    · cases ok1
      · rw [persist_mapping_failed p z s hc]
        exact Nat.le_succ s.writes
      · rw [persist_mapping_success p z s hc]
  · by_cases hc : alookup p s.confirmed = some z
    · rw [persist_mapping_noop p z ok1 s hc]
      simp only [hc, ne_eq, not_true_eq_false, false_and, iff_false]
      omega
    · cases ok1
      · rw [persist_mapping_failed p z s hc]
        simp only [hc, ne_eq, not_false_eq_true, true_and, Bool.false_eq_true, iff_false]
        omega
      · rw [persist_mapping_success p z s hc]
        simp [hc]

/-- C6: when the stored mapping differs and the durable flush fails, the
call is non-fatal (the embedded function is total because the source wraps
the dump in `try/except`, lines 337-342), the in-memory map still ends up
with `p ↦ z`, the disk and write count are untouched, and a later
successful flush (triggered by any other changed mapping) dumps the whole
map, durably writing `p ↦ z`. -/
theorem persist_flush_failure (p z q y : String) (s : StoreState)
    (hchanged : alookup p s.confirmed ≠ some z)
    (hq : q ≠ p)
    (hq2 : alookup q (persist_mapping p z false s).confirmed ≠ some y) :
    alookup p (persist_mapping p z false s).confirmed = some z ∧
    (persist_mapping p z false s).disk = s.disk ∧
    (persist_mapping p z false s).writes = s.writes ∧
    alookup p (persist_mapping q y true (persist_mapping p z false s)).disk = some z := by
  have h1 := persist_mapping_lookup p z false s
  refine ⟨h1, ?_, ?_, ?_⟩
  · rw [persist_mapping_failed p z s hchanged]
  · rw [persist_mapping_failed p z s hchanged]
  · rw [persist_mapping_success q y _ hq2]
    rw [alookup_aset_ne p q hq y _]
    exact h1

theorem persist_flush_failure_witness :
    alookup "BOX-001" (persist_mapping "BOX-001" "ShelfA" false ⟨[], [], 0⟩).confirmed =
        some "ShelfA" ∧
      (persist_mapping "BOX-001" "ShelfA" false (⟨[], [], 0⟩ : StoreState)).disk = [] ∧
      (persist_mapping "BOX-001" "ShelfA" false (⟨[], [], 0⟩ : StoreState)).writes = 0 ∧
      alookup "BOX-001"
        (persist_mapping "BOX-002" "ShelfB" true
          (persist_mapping "BOX-001" "ShelfA" false ⟨[], [], 0⟩)).disk = some "ShelfA" :=
  persist_flush_failure "BOX-001" "ShelfA" "BOX-002" "ShelfB" ⟨[], [], 0⟩
    (by decide) (by decide) (by decide)

/-! ### ZoneClassifier theorem -/

theorem centroid_to_zone_cons4 (cx cy x1 y1 x2 y2 : ℚ) (name : String)
    (rest : List (String × List ℚ)) :
    centroid_to_zone cx cy ((name, [x1, y1, x2, y2]) :: rest) =
      if x1 ≤ cx ∧ cx ≤ x2 ∧ y1 ≤ cy ∧ cy ≤ y2 then some name
      else centroid_to_zone cx cy rest := rfl

/-- C4: zone classification is a pure function (a Lean function of its
arguments, so identical inputs yield identical outputs definitionally);
its result is exactly the name of the first zone in declaration order
whose (well-formed, four-element) rectangle contains the centroid, or
`none`; and any returned name is one of the zone names of `Z`. -/
theorem centroid_to_zone_spec (cx cy : ℚ) (Z : List (String × List ℚ)) :
    centroid_to_zone cx cy Z = (Z.find? (fun nb => boxMatches cx cy nb.2)).map Prod.fst ∧
    ∀ n, centroid_to_zone cx cy Z = some n → n ∈ Z.map Prod.fst := by
  have hfind : centroid_to_zone cx cy Z =
      (Z.find? (fun nb => boxMatches cx cy nb.2)).map Prod.fst := by
    induction Z with
    | nil => rfl
    | cons nb rest ih =>
      obtain ⟨name, box⟩ := nb
      match box with
      | [x1, y1, x2, y2] =>
        rw [centroid_to_zone_cons4]
        by_cases hc : x1 ≤ cx ∧ cx ≤ x2 ∧ y1 ≤ cy ∧ cy ≤ y2
        · rw [if_pos hc, List.find?_cons_of_pos _ (by simpa [boxMatches] using hc)]
          rfl
        · rw [if_neg hc, List.find?_cons_of_neg _ (by simpa [boxMatches] using hc)]
          exact ih
      | [] =>
        rw [show centroid_to_zone cx cy ((name, ([] : List ℚ)) :: rest) =
            centroid_to_zone cx cy rest from rfl]
        rw [List.find?_cons_of_neg _ (by simp [boxMatches])]
        exact ih
      | [a] =>
        rw [show centroid_to_zone cx cy ((name, [a]) :: rest) =
            centroid_to_zone cx cy rest from rfl]
        rw [List.find?_cons_of_neg _ (by simp [boxMatches])]
        exact ih
      | [a, b] =>
        rw [show centroid_to_zone cx cy ((name, [a, b]) :: rest) =
            centroid_to_zone cx cy rest from rfl]
        rw [List.find?_cons_of_neg _ (by simp [boxMatches])]
        exact ih
      | [a, b, c] =>
        rw [show centroid_to_zone cx cy ((name, [a, b, c]) :: rest) =
            centroid_to_zone cx cy rest from rfl]
        rw [List.find?_cons_of_neg _ (by simp [boxMatches])]
        exact ih
      | a :: b :: c :: d :: e :: t =>
        rw [show centroid_to_zone cx cy ((name, a :: b :: c :: d :: e :: t) :: rest) =
            centroid_to_zone cx cy rest from rfl]
        rw [List.find?_cons_of_neg _ (by simp [boxMatches])]
        exact ih
  refine ⟨hfind, fun n hn => ?_⟩
  rw [hfind] at hn
  match hf : Z.find? (fun nb => boxMatches cx cy nb.2) with
  | none => rw [hf] at hn; simp at hn
  | some nb =>
    rw [hf] at hn
    have hmem := List.mem_of_find?_eq_some hf
    have : nb.1 = n := by simpa using hn
    rw [← this]
    exact List.mem_map_of_mem Prod.fst hmem

/-! ### Association-list lemmas for the detector dicts -/

theorem alookup_eq_none [DecidableEq κ] (k : κ) (l : List (κ × α)) :
    alookup k l = none ↔ k ∉ l.map Prod.fst := by
  induction l with
  | nil => simp [alookup]
  | cons kv rest ih =>
    obtain ⟨a, b⟩ := kv
    by_cases h : a = k
    · simp [alookup, h]
    · have h' : ¬ k = a := fun hh => h hh.symm
      simp [alookup, h, h', ih]

theorem alookup_append [DecidableEq κ] (k : κ) (l1 l2 : List (κ × α)) :
    alookup k (l1 ++ l2) =
      match alookup k l1 with
      | some v => some v
      | none => alookup k l2 := by
  induction l1 with
  | nil => simp [alookup]
  | cons kv rest ih =>
    obtain ⟨a, b⟩ := kv
    by_cases h : a = k <;> simp [alookup, h, ih]

theorem mem_aset [DecidableEq κ] (k : κ) (v : α) (l : List (κ × α)) :
    ∀ pv ∈ aset k v l, pv ∈ l ∨ pv = (k, v) := by
  induction l with
  | nil =>
    intro pv h
    simp [aset] at h
    exact Or.inr h
  | cons kv rest ih =>
    obtain ⟨a, b⟩ := kv
    intro pv h
    by_cases ha : a = k
    · rw [show aset k v ((a, b) :: rest) = (k, v) :: rest from by simp [aset, ha]] at h
      rcases List.mem_cons.1 h with h1 | h1
      · exact Or.inr h1
      · exact Or.inl (List.mem_cons_of_mem _ h1)
    · rw [show aset k v ((a, b) :: rest) = (a, b) :: aset k v rest from by
        simp [aset, ha]] at h
      rcases List.mem_cons.1 h with h1 | h1
      · exact Or.inl (h1 ▸ List.mem_cons_self _ _)
      · rcases ih pv h1 with h2 | h2
        · exact Or.inl (List.mem_cons_of_mem _ h2)
        · exact Or.inr h2

theorem aset_map_fst_of_lookup [DecidableEq κ] (k : κ) (v w : α) (l : List (κ × α))
    (hk : alookup k l = some w) : (aset k v l).map Prod.fst = l.map Prod.fst := by
  induction l with
  | nil => simp [alookup] at hk
  | cons kv rest ih =>
    obtain ⟨a, b⟩ := kv
    by_cases h : a = k
    · subst h
      simp [aset]
    · simp only [alookup, if_neg h] at hk
      simp [aset, h, ih hk]

theorem alookup_of_mem_nodup [DecidableEq κ] (l : List (κ × α)) (pv : κ × α)
    (hmem : pv ∈ l) (hnd : (l.map Prod.fst).Nodup) : alookup pv.1 l = some pv.2 := by
  induction l with
  | nil => simp at hmem
  | cons kv rest ih =>
    obtain ⟨a, b⟩ := kv
    simp only [List.map_cons, List.nodup_cons] at hnd
    rcases List.mem_cons.1 hmem with h | h
    · subst h
      simp [alookup]
    · have ha : ¬ a = pv.1 := by
        intro he
        exact hnd.1 (he ▸ List.mem_map_of_mem Prod.fst h)
      simp only [alookup, if_neg ha]
      exact ih h hnd.2

/-! ### `add_best` equations and fold invariants -/

theorem add_best_none (b : List (String × BestEntry)) (payload : String) (pts : List Pt)
    (score : Option ℚ) (h : alookup payload b = none) :
    add_best b payload pts score = b ++ [(payload, ⟨pts, quad_area pts, score⟩)] := by
  simp [add_best, h]

theorem add_best_some_lt (b : List (String × BestEntry)) (payload : String) (pts : List Pt)
    (score : Option ℚ) (prev : BestEntry) (h : alookup payload b = some prev)
    (hlt : prev.area < quad_area pts) :
    add_best b payload pts score = aset payload ⟨pts, quad_area pts, score⟩ b := by
  simp only [add_best, h]
  rw [if_pos hlt]

theorem add_best_some_ge (b : List (String × BestEntry)) (payload : String) (pts : List Pt)
    (score : Option ℚ) (prev : BestEntry) (h : alookup payload b = some prev)
    (hge : ¬ prev.area < quad_area pts) :
    add_best b payload pts score = b := by
  simp only [add_best, h]
  rw [if_neg hge]

/-- Every entry of an `add_best` fold is inherited from the initial dict
or records one of the processed calls, with its `area` field equal to the
quad area of its stored points. -/
theorem bestOf_fold_mem (evs : List (String × List Pt × Option ℚ))
    (b0 : List (String × BestEntry)) :
    ∀ pv ∈ evs.foldl (fun b ev => add_best b ev.1 ev.2.1 ev.2.2) b0,
      pv ∈ b0 ∨ ((pv.1, pv.2.pts, pv.2.score) ∈ evs ∧ pv.2.area = quad_area pv.2.pts) := by
  induction evs generalizing b0 with
  | nil => intro pv h; exact Or.inl h
  | cons ev rest ih =>
    intro pv h
    simp only [List.foldl_cons] at h
    rcases ih (add_best b0 ev.1 ev.2.1 ev.2.2) pv h with h1 | ⟨h1, h2⟩
    · cases halk : alookup ev.1 b0 with
      | none =>
        rw [add_best_none b0 ev.1 ev.2.1 ev.2.2 halk] at h1
        rcases List.mem_append.1 h1 with h2 | h2
        · exact Or.inl h2
        · simp only [List.mem_singleton] at h2
          subst h2
          exact Or.inr ⟨List.mem_cons_self _ _, rfl⟩
      | some prev =>
        by_cases hlt : prev.area < quad_area ev.2.1
        · rw [add_best_some_lt b0 ev.1 ev.2.1 ev.2.2 prev halk hlt] at h1
          rcases mem_aset ev.1 ⟨ev.2.1, quad_area ev.2.1, ev.2.2⟩ b0 pv h1 with h2 | h2
          · exact Or.inl h2
          · subst h2
            exact Or.inr ⟨List.mem_cons_self _ _, rfl⟩
        · rw [add_best_some_ge b0 ev.1 ev.2.1 ev.2.2 prev halk hlt] at h1
          exact Or.inl h1
    · exact Or.inr ⟨List.mem_cons_of_mem _ h1, h2⟩

theorem add_best_keys_nodup (b : List (String × BestEntry)) (payload : String)
    (pts : List Pt) (score : Option ℚ) (hb : (b.map Prod.fst).Nodup) :
    ((add_best b payload pts score).map Prod.fst).Nodup := by
  cases halk : alookup payload b with
  | none =>
    rw [add_best_none b payload pts score halk, List.map_append]
    have hnot : payload ∉ b.map Prod.fst := (alookup_eq_none payload b).1 halk
    simp [List.nodup_append, hb, hnot]
  | some prev =>
    by_cases hlt : prev.area < quad_area pts
    · rw [add_best_some_lt b payload pts score prev halk hlt,
        aset_map_fst_of_lookup payload _ prev b halk]
      exact hb
    · rw [add_best_some_ge b payload pts score prev halk hlt]
      exact hb

theorem bestOf_keys_nodup (evs : List (String × List Pt × Option ℚ)) :
    ((bestOf evs).map Prod.fst).Nodup := by
  suffices hgen : ∀ b0 : List (String × BestEntry), (b0.map Prod.fst).Nodup →
      ((evs.foldl (fun b ev => add_best b ev.1 ev.2.1 ev.2.2) b0).map Prod.fst).Nodup by
    exact hgen [] (by simp)
  induction evs with
  | nil => intro b0 hb; simpa using hb
  | cons ev rest ih =>
    intro b0 hb
    simp only [List.foldl_cons]
    exact ih _ (add_best_keys_nodup b0 ev.1 ev.2.1 ev.2.2 hb)

theorem add_best_lookup_grows (b : List (String × BestEntry)) (payload : String)
    (pts : List Pt) (score : Option ℚ) (k : String) (e : BestEntry)
    (h : alookup k b = some e) :
    ∃ e', alookup k (add_best b payload pts score) = some e' ∧ e.area ≤ e'.area := by
  cases halk : alookup payload b with
  | none =>
    refine ⟨e, ?_, le_refl _⟩
    rw [add_best_none b payload pts score halk, alookup_append, h]
  | some prev =>
    by_cases hlt : prev.area < quad_area pts
    · by_cases hk : payload = k
      · subst hk
        have he : e = prev := by
          rw [h] at halk
          exact Option.some.inj halk
        refine ⟨⟨pts, quad_area pts, score⟩, ?_, ?_⟩
        · rw [add_best_some_lt b payload pts score prev halk hlt]
          exact alookup_aset_self payload _ b
        · rw [he]
          exact le_of_lt hlt
      · refine ⟨e, ?_, le_refl _⟩
        rw [add_best_some_lt b payload pts score prev halk hlt,
          alookup_aset_ne k payload hk _ b]
        exact h
    · refine ⟨e, ?_, le_refl _⟩
      rw [add_best_some_ge b payload pts score prev halk hlt]
      exact h

theorem bestOf_fold_grows (evs : List (String × List Pt × Option ℚ))
    (b0 : List (String × BestEntry)) (k : String) (e : BestEntry)
    (h : alookup k b0 = some e) :
    ∃ e', alookup k (evs.foldl (fun b ev => add_best b ev.1 ev.2.1 ev.2.2) b0) = some e' ∧
      e.area ≤ e'.area := by
  induction evs generalizing b0 e with
  | nil => exact ⟨e, h, le_refl _⟩
  | cons ev rest ih =>
    simp only [List.foldl_cons]
    obtain ⟨e1, he1, hle1⟩ := add_best_lookup_grows b0 ev.1 ev.2.1 ev.2.2 k e h
    obtain ⟨e', he', hle'⟩ := ih _ e1 he1
    exact ⟨e', he', le_trans hle1 hle'⟩

theorem add_best_lookup_self (b : List (String × BestEntry)) (payload : String)
    (pts : List Pt) (score : Option ℚ) :
    ∃ e, alookup payload (add_best b payload pts score) = some e ∧ quad_area pts ≤ e.area := by
  cases halk : alookup payload b with
  | none =>
    refine ⟨⟨pts, quad_area pts, score⟩, ?_, le_refl _⟩
    rw [add_best_none b payload pts score halk, alookup_append, halk]
    simp [alookup]
  | some prev =>
    by_cases hlt : prev.area < quad_area pts
    · refine ⟨⟨pts, quad_area pts, score⟩, ?_, le_refl _⟩
      rw [add_best_some_lt b payload pts score prev halk hlt]
      exact alookup_aset_self payload _ b
    · refine ⟨prev, ?_, le_of_not_lt hlt⟩
      rw [add_best_some_ge b payload pts score prev halk hlt]
      exact halk

theorem bestOf_fold_covers (evs : List (String × List Pt × Option ℚ))
    (b0 : List (String × BestEntry)) :
    ∀ ev ∈ evs,
      ∃ e, alookup ev.1 (evs.foldl (fun b ev => add_best b ev.1 ev.2.1 ev.2.2) b0) = some e ∧
        quad_area ev.2.1 ≤ e.area := by
  induction evs generalizing b0 with
  | nil => intro ev h; simp at h
  | cons ev0 rest ih =>
    intro ev hmem
    simp only [List.foldl_cons]
    rcases List.mem_cons.1 hmem with h | h
    · subst h
      obtain ⟨e1, he1, hle1⟩ := add_best_lookup_self b0 ev.1 ev.2.1 ev.2.2
      obtain ⟨e', he', hle'⟩ := bestOf_fold_grows rest _ ev.1 e1 he1
      exact ⟨e', he', le_trans hle1 hle'⟩
    · exact ih _ ev h

/-! ### Detector theorems -/

/-- C3: the detector output is deduplicated by payload — each payload
occurs in at most one returned Detection — and the kept Detection's quad
area is maximal among all `add_best` calls (direct decodes of passes 1-2
and pass-3 promotions alike) that carried the same payload in this cycle. -/
theorem detect_dedup_by_payload (cfg : DetConfig) (o : DetOracle) (w h : Int)
    (zones : List (String × List ℚ)) :
    ((detect_qr_robust cfg o w h zones).map Detection.payload).Nodup ∧
    ∀ d ∈ detect_qr_robust cfg o w h zones,
      ∀ ev ∈ allPromoted cfg o w h zones, ev.1 = d.payload →
        quad_area ev.2.1 ≤ quad_area d.points := by
  constructor
  · have hkeys : (detect_qr_robust cfg o w h zones).map Detection.payload =
        (bestOf (allPromoted cfg o w h zones)).map Prod.fst := by
      unfold detect_qr_robust
      rw [List.map_map]
      rfl
    rw [hkeys]
    exact bestOf_keys_nodup _
  · intro d hd ev hev hpl
    unfold detect_qr_robust at hd
    obtain ⟨pv, hpv, heq⟩ := List.mem_map.1 hd
    have hdp : d.payload = pv.1 := by rw [← heq]
    have hdpts : d.points = pv.2.pts := by rw [← heq]
    have harea : pv.2.area = quad_area pv.2.pts := by
      rcases bestOf_fold_mem (allPromoted cfg o w h zones) [] pv hpv with h1 | ⟨-, h2⟩
      · simp at h1
      · exact h2
    have hlk : alookup pv.1 (bestOf (allPromoted cfg o w h zones)) = some pv.2 :=
      alookup_of_mem_nodup _ pv hpv (bestOf_keys_nodup _)
    obtain ⟨e, he, hle⟩ := bestOf_fold_covers (allPromoted cfg o w h zones) [] ev hev
    have hkey : ev.1 = pv.1 := by rw [hpl, hdp]
    rw [hkey] at he
    have hee : e = pv.2 := by
      have := he.symm.trans hlk
      exact Option.some.inj this
    rw [hdpts, ← harea]
    rw [hee] at hle
    exact hle

/-- A successful `_warp_patch` implies the clipped quad's longest edge
exceeds the 5-px threshold. -/
theorem warp_patch_some_edge (w h : Int) (o : DetOracle) (pts cp : List Pt)
    (hw : warp_patch w h o pts = some cp) : 25 < max_edge_sq (clip_pts w h pts) := by
  by_contra hle
  push_neg at hle
  simp only [warp_patch] at hw
  rw [if_pos hle] at hw
  exact Option.noConfusion hw

/-- Every pass-3 promotion carries a quad whose clipped longest edge
exceeds the 5-px threshold. -/
theorem pass3Promoted_mem (cfg : DetConfig) (o : DetOracle) (w h : Int)
    (zones : List (String × List ℚ)) :
    ∀ ev ∈ pass3Promoted cfg o w h zones, 25 < max_edge_sq (clip_pts w h ev.2.1) := by
  unfold pass3Promoted
  suffices hgen : ∀ (items : List CandEntry) (acc : List (String × List Pt × Option ℚ)),
      (∀ ev ∈ acc, 25 < max_edge_sq (clip_pts w h ev.2.1)) →
      ∀ ev ∈ items.foldl
        (fun acc item =>
          match warp_patch w h o item.pts with
          | none => acc
          | some cp =>
            let payload := o.warpDecode cp
            if payload = "" then acc
            else acc ++ [(payload, item.pts, some (o.diagScore cp))])
        acc,
        25 < max_edge_sq (clip_pts w h ev.2.1) by
    intro ev hev
    exact hgen _ [] (by simp) ev hev
  intro items
  induction items with
  | nil =>
    intro acc hacc ev hev
    exact hacc ev hev
  | cons item rest ih =>
    intro acc hacc ev hev
    simp only [List.foldl_cons] at hev
    refine ih _ ?_ ev hev
    intro ev' hev'
    cases hwp : warp_patch w h o item.pts with
    | none =>
      rw [hwp] at hev'
      exact hacc ev' hev'
    | some cp =>
      rw [hwp] at hev'
      by_cases hpl : o.warpDecode cp = ""
      · simp only [hpl, if_pos rfl] at hev'
        exact hacc ev' hev'
      · simp only [if_neg hpl] at hev'
        rcases List.mem_append.1 hev' with h1 | h1
        · exact hacc ev' h1
        · simp only [List.mem_singleton] at h1
          subst h1
          exact warp_patch_some_edge w h o item.pts cp hwp

/-- C2 amended: a detection either stems from a direct decode of the
full-frame or zone-scoped passes — which the source promotes with
`add_best` regardless of quad degeneracy (lines 567-578, 618-629) — or it
was promoted by the unresolved-candidate warp-decode pass, in which case
its clipped longest edge strictly exceeds the 5-px threshold (the only
geometric gate, `edge <= 5` at line 514; no distinct-point count is ever
checked). -/
theorem detect_degenerate_policy (cfg : DetConfig) (o : DetOracle) (w h : Int)
    (zones : List (String × List ℚ)) :
    ∀ d ∈ detect_qr_robust cfg o w h zones,
      (∃ sc, (d.payload, d.points, sc) ∈
        pass1Decoded o w h ++ pass2Decoded cfg o w h zones) ∨
      25 < max_edge_sq (clip_pts w h d.points) := by
  intro d hd
  unfold detect_qr_robust at hd
  obtain ⟨pv, hpv, heq⟩ := List.mem_map.1 hd
  have hdp : d.payload = pv.1 := by rw [← heq]
  have hdpts : d.points = pv.2.pts := by rw [← heq]
  rcases bestOf_fold_mem (allPromoted cfg o w h zones) [] pv hpv with h1 | ⟨hmem, -⟩
  · simp at h1
  unfold allPromoted at hmem
  rcases List.mem_append.1 hmem with h2 | h2
  · left
    exact ⟨pv.2.score, by rw [hdp, hdpts]; exact h2⟩
  · right
    rw [hdpts]
    exact pass3Promoted_mem cfg o w h zones _ h2

/-- C2 counterexample: a quad whose four points coincide (fewer than 3
distinct points, longest edge 0 ≤ the 5-px threshold) whose payload
decodes directly in the full-frame pass IS promoted to a Detection:
`add_best` is called for direct decodes regardless of the failed
diagnostic warp (lines 567-578), so the returned collection contains it. -/
theorem degenerate_quad_promoted_counterexample :
    detect_qr_robust ⟨false, 0, [], 160⟩
      ⟨[(some ⟨true, some ["X"], some [some [((10:ℚ), (10:ℚ)), (10, 10), (10, 10), (10, 10)]]⟩,
          none)],
        fun _ _ => (none, none), fun _ => true, fun _ => "", fun _ => 0⟩
      100 100 [] =
      [{ payload := "X", points := [((10:ℚ), (10:ℚ)), (10, 10), (10, 10), (10, 10)],
         centroid := (10, 10), zone := none, score := none }] ∧
    max_edge_sq (clip_pts 100 100 [((10:ℚ), (10:ℚ)), (10, 10), (10, 10), (10, 10)]) = 0 ∧
    ([((10:ℚ), (10:ℚ)), (10, 10), (10, 10), (10, 10)].dedup).length = 1 :=
  ⟨by decide, by decide, by decide⟩

theorem detect_degenerate_policy_witness :
    (∃ sc, ("Y", [((0:ℚ), (0:ℚ)), (50, 0), (50, 50), (0, 50)], sc) ∈
        pass1Decoded
          ⟨[(some ⟨true, some [""], some [some [((0:ℚ), (0:ℚ)), (50, 0), (50, 50), (0, 50)]]⟩,
              none)],
            fun _ _ => (none, none), fun _ => true, fun _ => "Y", fun _ => 0⟩ 100 100 ++
        pass2Decoded ⟨false, 0, [], 160⟩
          ⟨[(some ⟨true, some [""], some [some [((0:ℚ), (0:ℚ)), (50, 0), (50, 50), (0, 50)]]⟩,
              none)],
            fun _ _ => (none, none), fun _ => true, fun _ => "Y", fun _ => 0⟩ 100 100 []) ∨
    25 < max_edge_sq (clip_pts 100 100 [((0:ℚ), (0:ℚ)), (50, 0), (50, 50), (0, 50)]) :=
  detect_degenerate_policy ⟨false, 0, [], 160⟩
    ⟨[(some ⟨true, some [""], some [some [((0:ℚ), (0:ℚ)), (50, 0), (50, 50), (0, 50)]]⟩, none)],
      fun _ _ => (none, none), fun _ => true, fun _ => "Y", fun _ => 0⟩
    100 100 []
    { payload := "Y", points := [((0:ℚ), (0:ℚ)), (50, 0), (50, 50), (0, 50)],
      centroid := (25, 25), zone := none, score := some 0 }
    (by decide)

theorem detect_dedup_by_payload_witness :
    ((detect_qr_robust ⟨false, 0, [], 160⟩
        ⟨[(some ⟨true, some ["B"], some [some [((0:ℚ), (0:ℚ)), (1, 0), (1, 1), (0, 1)]]⟩, none),
          (some ⟨true, some ["B"], some [some [((0:ℚ), (0:ℚ)), (10, 0), (10, 10), (0, 10)]]⟩,
            none)],
          fun _ _ => (none, none), fun _ => false, fun _ => "", fun _ => 0⟩
        100 100 []).map Detection.payload).Nodup ∧
    quad_area [((0:ℚ), (0:ℚ)), (1, 0), (1, 1), (0, 1)] ≤
      quad_area [((0:ℚ), (0:ℚ)), (10, 0), (10, 10), (0, 10)] :=
  have h := detect_dedup_by_payload ⟨false, 0, [], 160⟩
    ⟨[(some ⟨true, some ["B"], some [some [((0:ℚ), (0:ℚ)), (1, 0), (1, 1), (0, 1)]]⟩, none),
      (some ⟨true, some ["B"], some [some [((0:ℚ), (0:ℚ)), (10, 0), (10, 10), (0, 10)]]⟩, none)],
      fun _ _ => (none, none), fun _ => false, fun _ => "", fun _ => 0⟩
    100 100 []
  ⟨h.1,
    h.2
      { payload := "B", points := [((0:ℚ), (0:ℚ)), (10, 0), (10, 10), (0, 10)],
        centroid := (5, 5), zone := none, score := none }
      (by decide) ("B", [((0:ℚ), (0:ℚ)), (1, 0), (1, 1), (0, 1)], none) (by decide) (by decide)⟩

/-! ### OverlayRenderer theorems -/

/-- Zone drawing never touches the polyline record. -/
theorem draw_zone_polys (w h : Int) (tor : TextOracle) (img : Image)
    (znb : String × List ℚ) : (draw_zone w h tor img znb).polys = img.polys := by
  unfold draw_zone
  split
  · dsimp only
    split_ifs <;> simp [drawRect, drawText]
  · rfl

theorem foldl_draw_zone_polys (w h : Int) (tor : TextOracle) (img : Image)
    (zones : List (String × List ℚ)) :
    (zones.foldl (draw_zone w h tor) img).polys = img.polys := by
  induction zones generalizing img with
  | nil => rfl
  | cons z rest ih =>
    simp only [List.foldl_cons]
    rw [ih, draw_zone_polys]

/-- Detection drawing appends exactly the int32-truncated quad as one
closed polyline (when the point list is nonempty) and touches the
polyline record in no other way. -/
theorem draw_det_polys (w h : Int) (tor : TextOracle) (dm : Bool) (img : Image)
    (d : Detection) :
    (draw_det w h tor dm img d).polys =
      img.polys ++ (if d.points = [] then [] else [d.points.map truncPt]) := by
  by_cases hp0 : d.points = []
  · simp [draw_det, hp0]
  · rw [if_neg hp0]
    have hm : ¬ d.points.map truncPt = [] := by
      intro hmap
      exact hp0 (List.map_eq_nil_iff.mp hmap)
    unfold draw_det
    rw [if_neg hp0]
    simp only []
    rw [if_neg hm]
    split_ifs
    · simp [drawPolylines]
    · split
      · simp [drawPolylines]
      · simp [drawPolylines, drawRect, drawText]

theorem foldl_draw_det_polys (w h : Int) (tor : TextOracle) (dm : Bool) (img : Image)
    (dets : List Detection) :
    (dets.foldl (draw_det w h tor dm) img).polys =
      img.polys ++
        dets.filterMap (fun d => if d.points = [] then none else some (d.points.map truncPt)) := by
  induction dets generalizing img with
  | nil => simp
  | cons d rest ih =>
    simp only [List.foldl_cons, List.filterMap_cons]
    rw [ih, draw_det_polys]
    by_cases hp0 : d.points = []
    · simp [hp0]
    · simp [hp0]

theorem render_on_polys (w h : Int) (tor : TextOracle) (dm : Bool) (img : Image)
    (dets : List Detection) (zones : List (String × List ℚ)) :
    (render_on w h tor dm img dets zones).polys =
      img.polys ++
        dets.filterMap (fun d => if d.points = [] then none else some (d.points.map truncPt)) := by
  unfold render_on
  rw [foldl_draw_det_polys]
  by_cases hz : zones.isEmpty
  · rw [if_pos hz]
  · rw [if_neg hz, foldl_draw_zone_polys]

/-- C7 counterexample: a detection whose quad has the fractional first
vertex (1/2, 1/2) is rendered as a polygon whose first vertex is (0, 0) —
the int32 conversion at line 763 truncates, so the drawn coordinates are
not exactly the input quad points. -/
theorem overlay_trunc_counterexample :
    ((draw_overlay [⟨7, [], [], []⟩] 0 100 100 ⟨fun _ => ((10, 10), 2), fun s _ => s⟩ false
        [{ payload := "X", points := [((1:ℚ)/2, (1:ℚ)/2), (10, 0), (10, 10), (0, 10)],
           centroid := (0, 0), zone := none, score := none }] []).1.getD 1
        ⟨0, [], [], []⟩).polys =
      [[((0:Int), (0:Int)), (10, 0), (10, 10), (0, 10)]] ∧
    ¬ ((((0:Int) : ℚ), ((0:Int) : ℚ)) = (((1:ℚ)/2), ((1:ℚ)/2))) :=
  ⟨by decide, by decide⟩

/-- C7 amended: the renderer never mutates the input frame — it draws only
on the freshly copied heap slot, every pre-existing slot (the frame
included) is unchanged, and the returned id is the new slot — and the
polygon drawn for each detection with a nonempty point list is exactly
the int32 truncation of the detection's quad points (no other transform);
the coordinates coincide with the input quad exactly when all its
coordinates are integral. -/
theorem draw_overlay_spec (hp : ImgHeap) (frameId : Nat) (w h : Int) (tor : TextOracle)
    (dm : Bool) (dets : List Detection) (zones : List (String × List ℚ))
    (hid : frameId < hp.length) :
    (∀ i, i < hp.length →
      ((draw_overlay hp frameId w h tor dm dets zones).1)[i]? = hp[i]?) ∧
    (draw_overlay hp frameId w h tor dm dets zones).2 = hp.length ∧
    frameId ≠ (draw_overlay hp frameId w h tor dm dets zones).2 ∧
    ((draw_overlay hp frameId w h tor dm dets zones).1.getD
        (draw_overlay hp frameId w h tor dm dets zones).2 ⟨0, [], [], []⟩).polys =
      (hp.getD frameId ⟨0, [], [], []⟩).polys ++
        dets.filterMap (fun d => if d.points = [] then none else some (d.points.map truncPt)) := by
  refine ⟨?_, rfl, Nat.ne_of_lt hid, ?_⟩
  · intro i hi
    unfold draw_overlay
    simp only []
    rw [List.getElem?_append, if_pos hi]
  · unfold draw_overlay
    simp only [List.getD]
    rw [List.get?_concat_length]
    simp only [Option.getD_some]
    exact render_on_polys w h tor dm _ dets zones

theorem draw_overlay_spec_witness :
    (0 < 1) ∧
      ((draw_overlay [⟨7, [], [], []⟩] 0 100 100 ⟨fun _ => ((10, 10), 2), fun s _ => s⟩ false
          [{ payload := "X", points := [((2:ℚ), (3:ℚ)), (10, 0), (10, 10), (0, 10)],
             centroid := (0, 0), zone := none, score := none }] []).1)[0]? =
        [(⟨7, [], [], []⟩ : Image)][0]? ∧
      ((draw_overlay [⟨7, [], [], []⟩] 0 100 100 ⟨fun _ => ((10, 10), 2), fun s _ => s⟩ false
          [{ payload := "X", points := [((2:ℚ), (3:ℚ)), (10, 0), (10, 10), (0, 10)],
             centroid := (0, 0), zone := none, score := none }] []).1.getD
          (draw_overlay [⟨7, [], [], []⟩] 0 100 100 ⟨fun _ => ((10, 10), 2), fun s _ => s⟩ false
            [{ payload := "X", points := [((2:ℚ), (3:ℚ)), (10, 0), (10, 10), (0, 10)],
               centroid := (0, 0), zone := none, score := none }] []).2 ⟨0, [], [], []⟩).polys =
        ([] : List (List (Int × Int))) ++
          ([{ payload := "X", points := [((2:ℚ), (3:ℚ)), (10, 0), (10, 10), (0, 10)],
              centroid := ((0:Int), (0:Int)), zone := none,
              score := none }] : List Detection).filterMap
            (fun d => if d.points = [] then none else some (d.points.map truncPt)) :=
  have h := draw_overlay_spec [⟨7, [], [], []⟩] 0 100 100
    ⟨fun _ => ((10, 10), 2), fun s _ => s⟩ false
    [{ payload := "X", points := [((2:ℚ), (3:ℚ)), (10, 0), (10, 10), (0, 10)],
       centroid := (0, 0), zone := none, score := none }] [] (by decide)
  ⟨by decide, h.1 0 (by decide), h.2.2.2⟩

/-! ### StateServer theorems -/

/-- C8 counterexample: before any publish, a read of the detections
listing answers 200 with the initial empty data (timestamp 0, no
detections), and the status/index page answers 200 — not an explicit
"not ready" signal; only the image endpoints answer 503. -/
theorem not_ready_counterexample :
    do_GET "overlay.png" "/detections.json" initialState = (200, .jsonDet 0 [] []) ∧
    do_GET "overlay.png" "/" initialState = (200, .html 0 []) ∧
    do_GET "overlay.png" "/overlay.png" initialState = (503, .text "overlay not ready") :=
  ⟨by decide, by decide, by decide⟩

/-- C8 amended: before the first publish only the two image endpoints
yield an explicit "not ready" (HTTP 503) signal; the detections listing
and the index page always answer 200, serving the initial empty snapshot
(timestamp 0, empty list) before the first cycle.  Every route reads the
fields of the single currently-published state, so after a publish each
route serves that snapshot's data. -/
theorem serving_not_ready_amended (n : String) (st : SrvState)
    (ts : Nat) (fp : Option (List Nat)) (ob : List Nat) (dets : List Detection)
    (fi : List (String × Nat))
    (hn1 : "/" ++ n ≠ "/frame.png") (hn2 : "/" ++ n ≠ "/detections.json") :
    do_GET n "/overlay.png" st =
      (match st.overlay_png with
       | none => (503, Body.text "overlay not ready")
       | some b => (200, Body.png b)) ∧
    do_GET n "/frame.png" st =
      (match st.frame_png with
       | none => (503, Body.text "frame not ready")
       | some b => (200, Body.png b)) ∧
    do_GET n "/detections.json" st = (200, .jsonDet st.ts st.detections st.last_frame_info) ∧
    do_GET n "/" st = (200, .html st.ts st.last_frame_info) ∧
    do_GET n "/overlay.png" (publish ts fp (some ob) dets fi st) = (200, .png ob) ∧
    do_GET n "/detections.json" (publish ts fp (some ob) dets fi st) =
      (200, .jsonDet ts dets fi) := by
  have hov : ∀ s : SrvState, do_GET n "/overlay.png" s =
      (match s.overlay_png with
       | none => (503, Body.text "overlay not ready")
       | some b => (200, Body.png b)) := by
    intro s
    unfold do_GET
    rw [if_neg (by decide), if_pos (Or.inl rfl)]
  have hdet : ∀ s : SrvState, do_GET n "/detections.json" s =
      (200, .jsonDet s.ts s.detections s.last_frame_info) := by
    intro s
    unfold do_GET
    rw [if_neg (by decide),
      if_neg (fun hor => Or.elim hor (fun hh => absurd hh (by decide)) (fun hh => hn2 hh.symm)),
      if_neg (by decide), if_pos rfl]
  refine ⟨hov st, ?_, hdet st, ?_, ?_, hdet _⟩
  · unfold do_GET
    rw [if_neg (by decide),
      if_neg (fun hor => Or.elim hor (fun hh => absurd hh (by decide)) (fun hh => hn1 hh.symm)),
      if_pos rfl]
  · unfold do_GET
    rw [if_pos (Or.inl rfl)]
  · rw [hov _]
    rfl

/-! ### Concurrency theorems -/

theorem sysInv_init : SysInv sysInit := by
  unfold SysInv sysInit
  dsimp only
  refine ⟨by omega, by omega, ?_, ?_, ?_, ?_, ?_, ?_⟩ <;> simp

theorem sysInv_step (s s' : Sys) (hst : Step s s') (hinv : SysInv s) : SysInv s' := by
  obtain ⟨hw6, hr7, hlw, hlr, hall, hpre, hread, hdone⟩ := hinv
  cases hst with
  | wAcquire h hw =>
    unfold SysInv
    dsimp only
    rw [h] at hlr
    simp only [reduceCtorEq, false_iff] at hlr
    refine ⟨by omega, hr7, ?_, ?_, ?_, ?_, hread, hdone⟩
    · exact iff_of_true rfl ⟨by omega, by omega⟩
    · exact iff_of_false (by simp) hlr
    · intro hc
      exact absurd hc (by omega)
    · intro i hi
      exact absurd hi (by omega)
  | wWrite i hw =>
    unfold SysInv
    dsimp only
    have hi5 := i.isLt
    have hlock : s.lock = some .writer := hlw.mpr ⟨by omega, by omega⟩
    refine ⟨by omega, hr7, ?_, ?_, ?_, ?_, ?_, hdone⟩
    · rw [hlock]
      exact iff_of_true rfl ⟨by omega, by omega⟩
    · rw [hlock]
      refine iff_of_false (by simp) ?_
      intro hc
      have h2 := hlr.mpr hc
      rw [hlock] at h2
      simp at h2
    · intro hc
      exact absurd hc (by omega)
    · intro j hj
      by_cases hji : j = i
      · subst hji
        rw [Function.update_same]
      · rw [Function.update_noteq hji]
        have hjv : j.val ≠ i.val := fun hh => hji (Fin.ext hh)
        exact hpre j (by omega)
    · intro j hj1 hj2
      exfalso
      have h2 := hlr.mpr ⟨by omega, hj2⟩
      rw [hlock] at h2
      simp at h2
  | wRelease hw =>
    unfold SysInv
    dsimp only
    have hlock : s.lock = some .writer := hlw.mpr ⟨by omega, by omega⟩
    refine ⟨by omega, hr7, ?_, ?_, ?_, ?_, hread, hdone⟩
    · exact iff_of_false (by simp) (by omega)
    · refine iff_of_false (by simp) ?_
      intro hc
      have h2 := hlr.mpr hc
      rw [hlock] at h2
      simp at h2
    · intro _ i j
      have hfi := hpre i (by have := i.isLt; omega)
      have hfj := hpre j (by have := j.isLt; omega)
      rw [hfi, hfj]
    · intro i hi
      exact absurd hi (by omega)
  | rAcquire h hr =>
    unfold SysInv
    dsimp only
    rw [h] at hlw
    simp only [reduceCtorEq, false_iff] at hlw
    refine ⟨hw6, by omega, ?_, ?_, hall, hpre, ?_, ?_⟩
    · exact iff_of_false (by simp) hlw
    · exact iff_of_true rfl ⟨by omega, by omega⟩
    · intro i hi
      exact absurd hi (by omega)
    · intro hc
      exact absurd hc (by omega)
  | rRead i hr =>
    unfold SysInv
    dsimp only
    have hi5 := i.isLt
    have hlock : s.lock = some .reader := hlr.mpr ⟨by omega, by omega⟩
    refine ⟨hw6, by omega, ?_, ?_, hall, hpre, ?_, ?_⟩
    · rw [hlock]
      refine iff_of_false (by simp) ?_
      intro hc
      have h2 := hlw.mpr hc
      rw [hlock] at h2
      simp at h2
    · rw [hlock]
      exact iff_of_true rfl ⟨by omega, by omega⟩
    · intro j hj1 hj2
      by_cases hji : j = i
      · subst hji
        rw [Function.update_same]
      · rw [Function.update_noteq hji]
        have hjv : j.val ≠ i.val := fun hh => hji (Fin.ext hh)
        exact hread j (by omega) (by omega)
    · intro hc
      exact absurd hc (by omega)
  | rRelease hr =>
    unfold SysInv
    dsimp only
    have hlock : s.lock = some .reader := hlr.mpr ⟨by omega, by omega⟩
    refine ⟨hw6, by omega, ?_, ?_, hall, hpre, ?_, ?_⟩
    · refine iff_of_false (by simp) ?_
      intro hc
      have h2 := hlw.mpr hc
      rw [hlock] at h2
      simp at h2
    · exact iff_of_false (by simp) (by omega)
    · intro i hi1 hi2
      exact absurd hi2 (by omega)
    · intro _ i j
      have hwpc0 : s.wpc = 0 := by
        by_contra hne
        have h2 := hlw.mpr ⟨by omega, hw6⟩
        rw [hlock] at h2
        simp at h2
      have hfields := hall hwpc0
      have hri := hread i (by have := i.isLt; omega) (by omega)
      have hrj := hread j (by have := j.isLt; omega) (by omega)
      rw [hri, hrj, hfields i j]

theorem reach_inv (s : Sys) (hs : Reach s) : SysInv s := by
  induction hs with
  | refl => exact sysInv_init
  | tail _ hstep ih => exact sysInv_step _ _ hstep ih

/-- C9: the publish/read protocol is torn-read free.  Both the writer's
five field assignments (lines 968-973) and a reader's five field copies
(lines 818-823) happen inside `STATE_LOCK` critical sections, so in every
reachable interleaving a completed read holds five values from one and
the same published snapshot: all its copies carry the same snapshot
number, i.e. the annotated image, raw image, detections and status served
from one request all come from a single atomically-published snapshot. -/
theorem snapshot_no_torn_reads (s : Sys) (hs : Reach s) (hdone : s.rpc = 7) :
    ∀ i j : Fin 5, s.regs i = s.regs j :=
  (reach_inv s hs).2.2.2.2.2.2.2 hdone

theorem snapshot_no_torn_reads_witness :
    Reach { lock := none, wpc := 0, wcycle := 0, rpc := 7,
            fields := (fun _ => 0), regs := (fun _ => 0) } ∧
    ({ lock := none, wpc := 0, wcycle := 0, rpc := 7,
       fields := (fun _ => 0), regs := (fun _ => 0) } : Sys).rpc = 7 ∧
    ({ lock := none, wpc := 0, wcycle := 0, rpc := 7,
       fields := (fun _ => 0), regs := (fun _ => 0) } : Sys).regs 0 =
      ({ lock := none, wpc := 0, wcycle := 0, rpc := 7,
         fields := (fun _ => 0), regs := (fun _ => 0) } : Sys).regs 1 := by
  have hreach : Reach { lock := none, wpc := 0, wcycle := 0, rpc := 7,
                        fields := (fun _ => 0), regs := (fun _ => 0) } := by
    have r1 : Relation.ReflTransGen Step sysInit { sysInit with lock := some .reader, rpc := 1 } :=
      Relation.ReflTransGen.single (Step.rAcquire sysInit rfl rfl)
    have r2 := Relation.ReflTransGen.tail r1 (Step.rRead _ (0 : Fin 5) rfl)
    have r3 := Relation.ReflTransGen.tail r2 (Step.rRead _ (1 : Fin 5) rfl)
    have r4 := Relation.ReflTransGen.tail r3 (Step.rRead _ (2 : Fin 5) rfl)
    have r5 := Relation.ReflTransGen.tail r4 (Step.rRead _ (3 : Fin 5) rfl)
    have r6 := Relation.ReflTransGen.tail r5 (Step.rRead _ (4 : Fin 5) rfl)
    have r7 := Relation.ReflTransGen.tail r6 (Step.rRelease _ rfl)
    unfold Reach
    convert r7 using 2
    · ext x
      fin_cases x <;> rfl
  exact ⟨hreach, rfl, snapshot_no_torn_reads _ hreach rfl 0 1⟩

theorem serving_not_ready_amended_witness :
    ("/" ++ "overlay.png" ≠ "/frame.png") ∧
      (do_GET "overlay.png" "/overlay.png" initialState =
          (match initialState.overlay_png with
           | none => (503, Body.text "overlay not ready")
           | some b => (200, Body.png b)) ∧
        do_GET "overlay.png" "/frame.png" initialState =
          (match initialState.frame_png with
           | none => (503, Body.text "frame not ready")
           | some b => (200, Body.png b)) ∧
        do_GET "overlay.png" "/detections.json" initialState =
          (200, .jsonDet initialState.ts initialState.detections
            initialState.last_frame_info) ∧
        do_GET "overlay.png" "/" initialState =
          (200, .html initialState.ts initialState.last_frame_info) ∧
        do_GET "overlay.png" "/overlay.png"
            (publish 7 (some [1]) (some [2]) [] [] initialState) = (200, .png [2]) ∧
        do_GET "overlay.png" "/detections.json"
            (publish 7 (some [1]) (some [2]) [] [] initialState) = (200, .jsonDet 7 [] [])) :=
  ⟨by decide,
    serving_not_ready_amended "overlay.png" initialState 7 (some [1]) [2] [] []
      (by decide) (by decide)⟩

theorem centroid_to_zone_spec_witness :
    centroid_to_zone 5 5 [("ShelfA", [0, 0, 10, 10]), ("ShelfB", [0, 0, 20, 20])] =
        (([("ShelfA", [0, 0, 10, 10]), ("ShelfB", [0, 0, 20, 20])] :
            List (String × List ℚ)).find?
          (fun nb => boxMatches 5 5 nb.2)).map Prod.fst ∧
      ∀ n,
        centroid_to_zone 5 5 [("ShelfA", [0, 0, 10, 10]), ("ShelfB", [0, 0, 20, 20])] = some n →
          n ∈ ([("ShelfA", [0, 0, 10, 10]), ("ShelfB", [0, 0, 20, 20])] :
              List (String × List ℚ)).map Prod.fst :=
  centroid_to_zone_spec 5 5 [("ShelfA", [0, 0, 10, 10]), ("ShelfB", [0, 0, 20, 20])]

end QrInventory
